import Mathlib

set_option maxRecDepth 16384

/-!
Verification of the streaming ANSI/VT100 escape-sequence decoder of
`src/UI/Widgets/Terminal.cpp` (class `AnsiEscapeCodeHandler`, function
`parseText`, helper `ansiColor`), together with the scrollback-buffer and
autoscroll helpers of the `Terminal` widget.

The embedding models Qt strings as `List Char` (the input is already-decoded
text, per the spec), `QColor` as an RGB record wrapped in `Option` (an invalid
`QColor()` is `none`), and `QTextCharFormat` as the foreground/background/bold
record the decoder actually touches.  The decoder is a fuel-indexed structural
recursion so that every concrete run evaluates by `decide`; the fuel used by
the top-level entry point (`parseText`) strictly dominates the input length,
and every recursive call consumes at least one input character, so the fuel
never runs out there.  The out-of-bounds `numbers.at(i + 1)` access in the
256-color branch of the C++ (undefined behavior) is modelled as the distinct
outcome `ParseOutcome.oobCrash`.
-/

/-- Characters of a Qt string (the input is already-decoded text). -/
abbrev Str := List Char

/-- The escape introducer byte `\x1b`. -/
def escChar : Char := '\x1b'

/-- The bell character `\x07`, used as the informal OSC terminator. -/
def belChar : Char := '\x07'

/-- `QString::indexOf(QChar)`: position of the first occurrence, `none` if absent. -/
def indexOfChar (c : Char) : Str → Option Nat
  | [] => none
  | a :: t => if a = c then some 0 else (indexOfChar c t).map (· + 1)

/-- `QString::indexOf(QString)`: position of the first occurrence of `pat`, `none` if absent. -/
def indexOfStr (pat : Str) : Str → Option Nat
  | [] => if pat = [] then some 0 else none
  | a :: t => if pat.isPrefixOf (a :: t) then some 0 else (indexOfStr pat t).map (· + 1)

/-- `QString::contains(QString)`. -/
def containsStr (pat s : Str) : Bool := (indexOfStr pat s).isSome

/-- ASCII upper-casing of one character.  `QString::toUpper` is Unicode-aware, but the
only letters the decoder compares after upper-casing are `K` and `J` (in the markers
`2K` / `2J`), whose sole lower-case preimages are the ASCII letters. -/
def toUpperCharA (c : Char) : Char :=
  if 'a' ≤ c ∧ c ≤ 'z' then Char.ofNat (c.toNat - 32) else c

/-- `QString::toUpper`, restricted to ASCII case mapping (see `toUpperCharA`). -/
def toUpperStr (s : Str) : Str := s.map toUpperCharA

/-- Numeric value of a digit string (the decoder only ever converts digit runs). -/
def digitsToNat (s : Str) : Nat := s.foldl (fun a c => a * 10 + (c.toNat - 48)) 0

/-- `QString::toUInt`: the parsed value, or 0 when the conversion fails
(out of `uint` range). -/
def toUInt (s : Str) : Nat :=
  let v := digitsToNat s
  if v ≤ 4294967295 then v else 0

/-- `QString::toInt` on a digit string: the parsed value, or 0 when the conversion
fails (out of `int` range).  The strings converted here consist of decimal digits,
so the value is never negative. -/
def toInt (s : Str) : Nat :=
  let v := digitsToNat s
  if v ≤ 2147483647 then v else 0

/-- A 24-bit RGB triple (a valid `QColor`, which the decoder uses without alpha). -/
structure Color where
  red : Nat
  green : Nat
  blue : Nat
deriving DecidableEq, Repr

/-- `QColor(int, int, int)`: valid only when every channel is within `0..255`;
out-of-range arguments produce an invalid color (`none`). -/
def qColorN (r g b : Nat) : Option Color :=
  if r ≤ 255 ∧ g ≤ 255 ∧ b ≤ 255 then some ⟨r, g, b⟩ else none

/-- The text attributes of `QTextCharFormat` that the decoder reads and writes:
foreground brush, background brush (each an optional color; an unset brush and a
brush holding an invalid color are both `none`), and whether the font weight is bold. -/
structure Format where
  foreground : Option Color
  background : Option Color
  bold : Bool
deriving DecidableEq, Repr

/-- The default-constructed `QTextCharFormat`: no brushes set, normal weight. -/
def defaultFormat : Format := ⟨none, none, false⟩

/-- `Format.setForeground`. -/
def Format.setForeground (f : Format) (c : Option Color) : Format := { f with foreground := c }

/-- `Format.setBackground`. -/
def Format.setBackground (f : Format) (c : Option Color) : Format := { f with background := c }

/-- `static QColor ansiColor(uint code)` of `Terminal.cpp`: the low-intensity ANSI
palette color for `code < 8` (bit 0 → red 170, bit 1 → green 170, bit 2 → blue 170);
for `code ≥ 8` the `QTC_ASSERT` fires and an invalid `QColor()` is returned. -/
def ansiColor (code : Nat) : Option Color :=
  if code < 8 then
    some ⟨if code &&& 1 ≠ 0 then 170 else 0,
          if code &&& 2 ≠ 0 then 170 else 0,
          if code &&& 4 ≠ 0 then 170 else 0⟩
  else none

/-- `QColor::lighter(150)` specialized to the low-intensity ANSI palette colors it is
applied to (channels 0 or 170): Qt scales the HSV value component by 150/100 and
clamps, which on this palette coincides with scaling every RGB channel by 150/100
and clamping to 255 (170 · 150 / 100 = 255 exactly). -/
def lighter150 (c : Color) : Color :=
  ⟨min (c.red * 150 / 100) 255, min (c.green * 150 / 100) 255, min (c.blue * 150 / 100) 255⟩

/-- The 256-color palette mapping of the `case 5:` branch of `parseText`
(Terminal.cpp lines 847-885): indices 0-7 via `ansiColor`, 8-15 via
`ansiColor(index - 8).lighter(150)`, 16-231 the 6×6×6 cube, 232.. greyscale. -/
def color256 (index : Nat) : Option Color :=
  if index < 8 then ansiColor index
  else if index < 16 then (ansiColor (index - 8)).map lighter150
  else if index < 232 then
    let o := index - 16
    qColorN ((o / 36) * 51) (((o / 6) % 6) * 51) ((o % 6) * 51)
  else
    let grey := (index - 232) * 11
    qColorN grey grey grey

/-- The mutable fields of `AnsiEscapeCodeHandler` that `parseText` reads and writes
(the spec's `ParserState`). -/
structure AnsiEscapeCodeHandler where
  m_pendingText : Str
  m_previousFormat : Format
  m_previousFormatClosed : Bool
  m_waitingForTerminator : Bool
  m_alternateTerminator : Str
deriving DecidableEq, Repr

/-- Modelled from the spec: the freshly constructed decoder state (the class
declaration with its field initializers lives in the header `Terminal.h`, which is
not among the provided sources).  Per the spec's ParserState lifecycle: no pending
bytes, the format scope closed (the caller's baseline is honored), not waiting for
a string terminator. -/
def initHandler : AnsiEscapeCodeHandler := ⟨[], defaultFormat, true, false, []⟩

/-- `endFormatScope()` (Terminal.cpp lines 903-906). -/
def AnsiEscapeCodeHandler.endFormatScope (st : AnsiEscapeCodeHandler) : AnsiEscapeCodeHandler :=
  { st with m_previousFormatClosed := true }

/-- `setFormatScope(charFormat)` (Terminal.cpp lines 908-912). -/
def AnsiEscapeCodeHandler.setFormatScope (st : AnsiEscapeCodeHandler) (cf : Format) :
    AnsiEscapeCodeHandler :=
  { st with m_previousFormat := cf, m_previousFormatClosed := false }

/-- `FormattedText`: a styled run of text. -/
structure FormattedText where
  text : Str
  format : Format
deriving DecidableEq, Repr

/-- The buffer-control side effects `parseText` performs on the attached text edit:
the `2K` branch erases the current (last) line, the `2J` branch clears the screen. -/
inductive Effect where
  | clearCurrentLine : Effect
  | clearScreen : Effect
deriving DecidableEq, Repr

/-- The complete observable result of one `parseText` call: the returned vector of
styled runs, the optional side effect performed on the text edit (at most one per
call, since both effect branches return immediately), and the decoder state after
the call. -/
structure ParseResult where
  runs : List FormattedText
  effect : Option Effect
  state : AnsiEscapeCodeHandler
deriving DecidableEq, Repr

/-- Either a normal completion or the undefined behavior of the unguarded
`numbers.at(i + 1)` access in the 256-color branch. -/
inductive ParseOutcome where
  | ok : ParseResult → ParseOutcome
  | oobCrash : ParseOutcome
deriving DecidableEq, Repr

/-- The digit-run scanner of `parseText` (Terminal.cpp lines 745-768): walks the text
collecting decimal digit runs separated by `;` into `numbers`, stopping (without
consuming) at the first character that is neither a digit nor a separating `;`, or at
a `;` that follows an empty digit run.  Returns `(numbers, consumed, remaining)`,
where `consumed` lists the characters appended to `m_pendingText` one by one and
`consumed ++ remaining` is the input. -/
def scanNumbers : Str → Str → List Str → (List Str × Str × Str)
  | [], _, nums => (nums, [], [])
  | c :: rest, strNumber, nums =>
    if c.isDigit then
      let r := scanNumbers rest (strNumber ++ [c]) nums
      (r.1, c :: r.2.1, r.2.2)
    else
      let nums' := if strNumber ≠ [] then nums ++ [strNumber] else nums
      if strNumber = [] ∨ c ≠ ';' then (nums', [], c :: rest)
      else
        let r := scanNumbers rest [] nums'
        (r.1, c :: r.2.1, r.2.2)

/-- The SGR application loop of `parseText` (Terminal.cpp lines 789-892), in
consume-the-list form: the C++ iterates an index `i` over `numbers` and advances it
by the extra parameters each code consumes (`++i` for the extended-color mode
selector, `++i`/`i += 3` for its payload), which corresponds to recursing on the
tail lists below.  `base` is `input.format`.  In the `case 2:` branch the C++ does
`i += 3` even when the `(i + 3) < numbers.size()` guard fails, which runs the index
off the end and terminates the loop: fewer than three remaining parameters therefore
end processing, which the second wildcard row reproduces.  The `case 5:` branch reads
`numbers.at(i + 1)` without any bounds check; when the parameter list ends right
after the mode selector this access is out of bounds (undefined behavior), modelled
as `none`. -/
def applyCodes (base : Format) :
    List Str → Format → AnsiEscapeCodeHandler → Option (Format × AnsiEscapeCodeHandler)
  | [], cf, st => some (cf, st)
  | n :: rest, cf, st =>
    let code := toUInt n
    if 30 ≤ code ∧ code ≤ 37 then
      let cf' := cf.setForeground (ansiColor (code - 30))
      applyCodes base rest cf' (st.setFormatScope cf')
    else if 40 ≤ code ∧ code ≤ 47 then
      let cf' := cf.setBackground (ansiColor (code - 40))
      applyCodes base rest cf' (st.setFormatScope cf')
    else if code = 0 then
      applyCodes base rest base st.endFormatScope
    else if code = 1 then
      let cf' := { cf with bold := true }
      applyCodes base rest cf' (st.setFormatScope cf')
    else if code = 39 then
      let cf' := cf.setForeground base.foreground
      applyCodes base rest cf' (st.setFormatScope cf')
    else if code = 49 then
      let cf' := cf.setBackground base.background
      applyCodes base rest cf' (st.setFormatScope cf')
    else if code = 38 ∨ code = 48 then
      match rest with
      | [] => some (cf, st)
      | mode :: rest2 =>
        if toInt mode = 2 then
          match rest2 with
          | r :: g :: b :: rest3 =>
            let cf' := if code = 38 then cf.setForeground (qColorN (toInt r) (toInt g) (toInt b))
                       else cf.setBackground (qColorN (toInt r) (toInt g) (toInt b))
            applyCodes base rest3 cf' (st.setFormatScope cf')
          | _ => some (cf, st)
        else if toInt mode = 5 then
          match rest2 with
          | [] => none
          | idx :: rest3 =>
            let c := color256 (toUInt idx)
            let cf' := if code = 38 then cf.setForeground c else cf.setBackground c
            applyCodes base rest3 cf' (st.setFormatScope cf')
        else applyCodes base rest2 cf st
    else applyCodes base rest cf st

/-- The observable contribution of one iteration of the `parseText` loops:
`done δ effect keepEarlier state` finishes the call, appending the runs `δ` to the
output vector — except that the erase-screen branch discards the vector collected
so far (`keepEarlier = false`, returning an empty vector); `crash` is the
out-of-bounds parameter access; `next state charFormat stripped δ` appends the runs
`δ` and continues at the next loop head. -/
inductive Step where
  | done : List FormattedText → Option Effect → Bool → AnsiEscapeCodeHandler → Step
  | crash : Step
  | next : AnsiEscapeCodeHandler → Format → Str → List FormattedText → Step
deriving DecidableEq, Repr

/-- The terminator search of the `m_waitingForTerminator` branch (Terminal.cpp lines
634-641): the string terminator `ESC \`, or failing that the alternate terminator
when one is set; the position is paired with the matched terminator's length. -/
def findStringTerminator (st : AnsiEscapeCodeHandler) (stripped : Str) : Option (Nat × Nat) :=
  match indexOfStr [escChar, '\\'] stripped with
  | some p => some (p, 2)
  | none =>
    if st.m_alternateTerminator ≠ [] then
      match indexOfStr st.m_alternateTerminator stripped with
      | some p => some (p, st.m_alternateTerminator.length)
      | none => none
    else none

/-- One iteration of the loops of `parseText` (Terminal.cpp lines 629-894): either a
final `ParseResult` (`done`), the out-of-bounds parameter access (`crash`), or the
decoder state, character format, working text and output vector at the next loop
head (`next`).  The C++ nests an inner `while` (escape handling) inside the outer
`while`; at every back edge of either loop `m_pendingText` is empty and
`m_waitingForTerminator` is false or about to be re-examined by the outer head,
so both loop heads behave identically and collapse into this single step.
Notes kept from the C++:
the `QTC_ASSERT(m_pendingText.isEmpty(), break)` guard is the second test;
a working text equal to `"\x1b["` exactly is stashed by the
`escape.startsWith(strippedText)` test in the C++, while here it flows through the
CSI branch whose scanner consumes nothing and stashes the same two bytes —
identical result;  the erase-line/erase-screen tests search the upper-cased
remainder of the whole chunk and return at once, leaving the two introducer bytes
in `m_pendingText`; the erase-screen branch discards the runs accumulated so far;
in the `case 2:` spirit of `applyCodes`, an SGR sequence `m`-terminated with an
empty parameter list resets `charFormat` to the baseline and closes the scope. -/
def csiStep (base : Format) (st : AnsiEscapeCodeHandler) (cf : Format) (tail2 : Str) : Step :=
  if containsStr ['2', 'K'] (toUpperStr tail2) then
    .done [] (some .clearCurrentLine) true { st with m_pendingText := [escChar, '['] }
  else if containsStr ['2', 'J'] (toUpperStr tail2) then
    .done [] (some .clearScreen) false { st with m_pendingText := [escChar, '['] }
  else if tail2.head? = some 'K' then
    .next { st with m_pendingText := [] } cf (tail2.drop 1) []
  else if (scanNumbers tail2 [] []).2.2 = [] then
    .done [] none true
      { st with m_pendingText := [escChar, '['] ++ (scanNumbers tail2 [] []).2.1 }
  else if (scanNumbers tail2 [] []).2.2.head? ≠ some 'm' then
    .next { st with m_pendingText := [] } cf ((scanNumbers tail2 [] []).2.2.drop 1) []
  else
    match applyCodes base (scanNumbers tail2 [] []).1
        (if (scanNumbers tail2 [] []).1 = [] then base else cf)
        (if (scanNumbers tail2 [] []).1 = [] then
          ({ st with m_pendingText := [] } : AnsiEscapeCodeHandler).endFormatScope
        else { st with m_pendingText := [] }) with
    | none => .crash
    | some (cf2, st2) => .next st2 cf2 ((scanNumbers tail2 [] []).2.2.drop 1) []

/-- The single-escape dispatch of the inner loop (Terminal.cpp lines 666-701), on
the character following the introducer. -/
def escDispatch (base : Format) (st : AnsiEscapeCodeHandler) (cf : Format) (c : Char)
    (tail2 : Str) : Step :=
  if c = '[' then csiStep base st cf tail2
  else if c = '\\' ∨ c = 'N' ∨ c = 'O' then .next st cf tail2 []
  else if c = ']' then
    .next { st with m_waitingForTerminator := true, m_alternateTerminator := [belChar] }
      cf tail2 []
  else if c = 'P' ∨ c = 'X' ∨ c = '^' ∨ c = '_' then
    .next { st with m_waitingForTerminator := true } cf tail2 []
  else .next { st with m_pendingText := [] } cf (c :: tail2) [⟨[escChar], cf⟩]

def parseStep (base : Format) (st : AnsiEscapeCodeHandler) (cf : Format) (stripped : Str) :
    Step :=
  if stripped = [] then .done [] none true st
  else if st.m_pendingText ≠ [] then .done [] none true st
  else if st.m_waitingForTerminator then
    match findStringTerminator st stripped with
    | none => .done [] none true { st with m_pendingText := stripped }
    | some (p, len) =>
      .next { st with m_waitingForTerminator := false, m_alternateTerminator := [] } cf
        (stripped.drop (p + len)) []
  else
    match indexOfChar escChar stripped with
    | none => .done [⟨stripped, cf⟩] none true st
    | some escapePos =>
      if escapePos = 0 then
        match stripped.drop 1 with
        | [] => .done [] none true { st with m_pendingText := [escChar] }
        | c :: tail2 => escDispatch base st cf c tail2
      else .next st cf (stripped.drop escapePos) [⟨stripped.take escapePos, cf⟩]

/-- Iterating `parseStep` under a fuel bound, appending each step's emitted runs to
the output vector `acc` (the erase-screen branch discards the vector, as the C++
returns an empty one).  Every `next` step strictly shrinks the working text, so any
fuel exceeding `stripped.length` suffices (fuel exhaustion yields `none`, which
`parseText` below never produces). -/
def parseTextLoop :
    Nat → Format → AnsiEscapeCodeHandler → Format → Str → List FormattedText →
    Option ParseOutcome
  | 0, _, _, _, _, _ => none
  | fuel + 1, base, st, cf, stripped, acc =>
    match parseStep base st cf stripped with
    | .done δ eff keepEarlier st' =>
      some (.ok ⟨if keepEarlier then acc ++ δ else δ, eff, st'⟩)
    | .crash => some .oobCrash
    | .next st' cf' stripped' δ => parseTextLoop fuel base st' cf' stripped' (acc ++ δ)

/-- `AnsiEscapeCodeHandler::parseText(FormattedText input)` (Terminal.cpp lines
596-896): initializes the local `charFormat` from `m_previousFormatClosed`, prepends
the carried `m_pendingText` to the new chunk, clears it, and runs the state machine.
The fuel `stripped.length + 1` strictly dominates every chain of recursive calls, so
the result is never `none`. -/
def parseText (st : AnsiEscapeCodeHandler) (input : Str) (base : Format) :
    Option ParseOutcome :=
  let cf := if st.m_previousFormatClosed then base else st.m_previousFormat
  let stripped := st.m_pendingText ++ input
  parseTextLoop (stripped.length + 1) base { st with m_pendingText := [] } cf stripped []

/-- Split a text on the newline character; the result is always non-empty and
`parts.length = newline count + 1`. -/
def splitNewlines (t : Str) : List Str :=
  match t with
  | [] => [[]]
  | c :: rest =>
    let parts := splitNewlines rest
    if c = '\n' then [] :: parts
    else
      match parts with
      | [] => [[c]]
      | p :: ps => (c :: p) :: ps

/-- A scrollback document: the ordered blocks (logical lines) of the
`QPlainTextEdit`'s `QTextDocument`.  A `QTextDocument` always holds at least one
block; the empty document is `[[]]`. -/
abbrev Doc := List Str

/-- `QTextCursor::insertText` at the end of the document (the insertion of
`Terminal::addText`, Terminal.cpp lines 538-542): the first newline-free segment
extends the last block and each further segment starts a new block. -/
def insertTextAtEnd (doc : Doc) (t : Str) : Doc :=
  match splitNewlines t with
  | [] => doc
  | p :: ps =>
    match doc with
    | [] => (p :: ps)
    | _ => doc.dropLast ++ [doc.getLast! ++ p] ++ ps

/-- The first half of the `2K` side effect (Terminal.cpp lines 720-725): move to the
end, select from the start of the last line to the end, and remove the selected
text — the last block's content is erased. -/
def removeLastBlockContent (doc : Doc) : Doc := doc.dropLast ++ [[]]

/-- The second half of the `2K` side effect (Terminal.cpp line 726):
`deletePreviousChar` with the cursor at the start of the (now empty) last block
deletes the preceding block separator, merging the last block into the one before
it; on a single-block document there is no previous character and nothing happens. -/
def deletePreviousCharDoc (doc : Doc) : Doc :=
  match doc.reverse with
  | [] => []
  | [b] => [b]
  | b :: p :: rest => ((p ++ b) :: rest).reverse

/-- The full `2K` erase-current-line side effect on the document. -/
def applyClearCurrentLine (doc : Doc) : Doc :=
  deletePreviousCharDoc (removeLastBlockContent doc)

/-- Applying one `parseText` outcome to the document the way
`Terminal::vt100Processing` + `Terminal::addText` do: the erase side effect happens
inside `parseText` (before the caller inserts anything), then the concatenation of
the returned runs' texts is inserted at the end. -/
def applyOutcomeToDoc (doc : Doc) (o : ParseOutcome) : Doc :=
  match o with
  | .oobCrash => doc
  | .ok r =>
    let doc1 :=
      match r.effect with
      | some .clearCurrentLine => applyClearCurrentLine doc
      | some .clearScreen => [[]]
      | none => doc
    insertTextAtEnd doc1 (r.runs.foldl (fun a ft => a ++ ft.text) [])

/-- Modelled from the spec: the block-count bound of the scrollback document.
`Terminal::setMaximumBlockCount` (Terminal.cpp lines 491-497) delegates to
`QPlainTextEdit::setMaximumBlockCount`, whose trimming is Qt library behavior absent
from the sources: per the spec, whenever `maxBlockCount > 0` the oldest blocks are
removed after every append until at most `maxBlockCount` remain, and a value ≤ 0
imposes no bound. -/
def trimBlocks (maxBlockCount : Int) (bs : Doc) : Doc :=
  if 0 < maxBlockCount then bs.drop (bs.length - maxBlockCount.toNat) else bs

/-- Modelled from the spec: appending one block to the bounded scrollback document
(append, then trim the oldest blocks). -/
def appendBlock (maxBlockCount : Int) (bs : Doc) (b : Str) : Doc :=
  trimBlocks maxBlockCount (bs ++ [b])

/-- `qRound` on an exact rational: round to the nearest integer, halves away from
zero (the argument, a widget height divided by a font height, is never negative). -/
def qRoundQ (x : ℚ) : ℤ := ⌊x + 1 / 2⌋

/-- `Terminal::scrollToBottom` (Terminal.cpp lines 457-481), reduced to the scrollbar
value it computes: `visibleLines = qRound(height() / fontMetrics().height())`;
if `visibleLines ≤ 0` the operation aborts with no scroll update (`none`);
otherwise the scrollbar is set to `lineCount - visibleLines + 2` when
`lineCount > visibleLines` and to 0 otherwise. -/
def scrollToBottomValue (viewportHeight lineHeight : ℚ) (lineCount : ℤ) : Option ℤ :=
  let visibleLines := qRoundQ (viewportHeight / lineHeight)
  if visibleLines ≤ 0 then none
  else if lineCount > visibleLines then some (lineCount - visibleLines + 2)
  else some 0

/-- Modelled from the spec: the autoscroll position as §4.2 words it, with
`viewportLines = floor(viewportHeight / lineHeight)`. -/
def scrollToBottomValueSpec (viewportHeight lineHeight : ℚ) (lineCount : ℤ) : Option ℤ :=
  let viewportLines := ⌊viewportHeight / lineHeight⌋
  if viewportLines ≤ 0 then none
  else if lineCount > viewportLines then some (lineCount - viewportLines + 2)
  else some 0

/-- The amended autoscroll specification: as §4.2, but with `viewportLines` the
nearest integer to `viewportHeight / lineHeight` (halves rounded up), here written
independently as `⌊(2·h + lh) / (2·lh)⌋`. -/
def scrollToBottomValueAmended (viewportHeight lineHeight : ℚ) (lineCount : ℤ) : Option ℤ :=
  let viewportLines := ⌊(2 * viewportHeight + lineHeight) / (2 * lineHeight)⌋
  if viewportLines ≤ 0 then none
  else if lineCount > viewportLines then some (lineCount - viewportLines + 2)
  else some 0

/-- The spec's low-intensity ANSI palette formula (§4.1): for an index `i` in
`[0, 7]`, red is 170 if bit 0 of `i` is set else 0, green likewise from bit 1,
blue from bit 2. -/
def ansiPaletteSpec (i : Nat) : Color :=
  ⟨if i &&& 1 ≠ 0 then 170 else 0,
   if i &&& 2 ≠ 0 then 170 else 0,
   if i &&& 4 ≠ 0 then 170 else 0⟩

/-- The spec's 256-color palette mapping (§4.1), written from its words: indices
0..7 use the low-intensity formula; 8..15 the low-intensity formula for `index - 8`
with each channel scaled by 1.5 and clamped to 255; 16..231 the 6×6×6 cube with
`o = index - 16` under integer division; 232..255 the greyscale
`grey = (index - 232) * 11`. -/
def specColor256 (index : Nat) : Color :=
  if index ≤ 7 then ansiPaletteSpec index
  else if index ≤ 15 then
    let c := ansiPaletteSpec (index - 8)
    ⟨min (c.red * 3 / 2) 255, min (c.green * 3 / 2) 255, min (c.blue * 3 / 2) 255⟩
  else if index ≤ 231 then
    let o := index - 16
    ⟨(o / 36) * 51, ((o / 6) % 6) * 51, (o % 6) * 51⟩
  else
    let grey := (index - 232) * 11
    ⟨grey, grey, grey⟩

theorem indexOfChar_eq_none_of_not_mem {c : Char} : ∀ {s : Str}, c ∉ s → indexOfChar c s = none
  | [], _ => rfl
  | a :: t, h => by
    have ha : ¬a = c := fun hc => h (hc ▸ List.mem_cons_self a t)
    have ht : c ∉ t := fun hm => h (List.mem_cons_of_mem a hm)
    simp [indexOfChar, ha, indexOfChar_eq_none_of_not_mem ht]

theorem color256_eq_spec (i : Nat) (hi : i ≤ 255) : color256 i = some (specColor256 i) := by
  have h : ∀ j : Fin 256, color256 j.val = some (specColor256 j.val) := by decide
  exact h ⟨i, by omega⟩

theorem parseStep_no_esc (base : Format) (st : AnsiEscapeCodeHandler) (cf : Format) (s : Str)
    (hs : s ≠ []) (hpend : st.m_pendingText = [])
    (hwait : st.m_waitingForTerminator = false) (hesc : escChar ∉ s) :
    parseStep base st cf s = .done [⟨s, cf⟩] none true st := by
  unfold parseStep
  rw [if_neg hs, if_neg (by simp [hpend]), if_neg (by simp [hwait]),
    indexOfChar_eq_none_of_not_mem hesc]

/-! ### C1 -/

/-- C1: the claim that `parseText` never fails on any numeric-parameter list —
including an SGR parameter list ending immediately after the extended-color mode
selector — is the intent, but the code violates it: on `ESC[38;5m` the `case 5:`
branch reads `numbers.at(i + 1)` with `i + 1 = numbers.size()`, an out-of-bounds
access (undefined behavior), unlike the bounds-guarded `case 2:` branch beside it. -/
theorem c1_feed_crashes_on_truncated_extended_color :
    parseText initHandler ['\x1b', '[', '3', '8', ';', '5', 'm'] defaultFormat =
      some ParseOutcome.oobCrash := by decide

/-! ### C3 -/

/-- C3 counterexample: a decoder state with empty `pendingBytes` and `formatClosed`
true — but waiting for a string terminator — satisfies the claim's hypotheses, yet
feeding the escape-free non-empty chunk `hello` emits no event at all (the chunk is
swallowed into `pendingBytes`), not exactly one TextRun. -/
theorem c3_counterexample :
    (⟨[], defaultFormat, true, true, []⟩ : AnsiEscapeCodeHandler).m_pendingText = [] ∧
    (⟨[], defaultFormat, true, true, []⟩ : AnsiEscapeCodeHandler).m_previousFormatClosed = true ∧
    ['h', 'e', 'l', 'l', 'o'] ≠ ([] : Str) ∧ escChar ∉ ['h', 'e', 'l', 'l', 'o'] ∧
    parseText ⟨[], defaultFormat, true, true, []⟩ ['h', 'e', 'l', 'l', 'o'] defaultFormat =
      some (.ok ⟨[], none, ⟨['h', 'e', 'l', 'l', 'o'], defaultFormat, true, true, []⟩⟩) := by
  decide

/-- C3 (amended): for every non-empty chunk containing no escape-introducer byte,
fed to a decoder whose `pendingBytes` is empty, whose `formatClosed` flag is true,
and which is not waiting for a string terminator, `feed` returns exactly one event:
a TextRun whose text is the chunk and whose style is the caller's baseline; hence
concatenating the emitted TextRun texts reproduces the input. -/
theorem c3_plain_chunk_single_textrun (st : AnsiEscapeCodeHandler) (chunk : Str) (base : Format)
    (hne : chunk ≠ []) (hesc : escChar ∉ chunk)
    (hpend : st.m_pendingText = []) (hclosed : st.m_previousFormatClosed = true)
    (hwait : st.m_waitingForTerminator = false) :
    parseText st chunk base = some (.ok ⟨[⟨chunk, base⟩], none, { st with m_pendingText := [] }⟩) ∧
    [(⟨chunk, base⟩ : FormattedText)].foldl (fun a ft => a ++ ft.text) [] = chunk := by
  constructor
  · unfold parseText
    rw [hpend]
    simp only [List.nil_append, hclosed, if_true]
    rw [parseTextLoop, parseStep_no_esc base _ base chunk hne (by simp) (by simp [hwait]) hesc]
    simp
  · simp

/-- C3 witness. -/
theorem c3_plain_chunk_single_textrun_witness :
    parseText initHandler ['h', 'i'] defaultFormat =
      some (.ok ⟨[⟨['h', 'i'], defaultFormat⟩], none, initHandler⟩) ∧
    [(⟨['h', 'i'], defaultFormat⟩ : FormattedText)].foldl (fun a ft => a ++ ft.text) [] =
      ['h', 'i'] :=
  (c3_plain_chunk_single_textrun initHandler ['h', 'i'] defaultFormat (by decide) (by decide)
    rfl rfl rfl)

/-! ### C6 -/

/-- C6: for every 256-color SGR selection `38;5;index` or `48;5;index` with
`index ≤ 255`, the color the decoder assigns (to the foreground, resp. background)
is exactly the spec's piecewise palette mapping `specColor256`. -/
theorem c6_256_color_selection_matches_spec (s : Str) (i : Nat) (hi : i ≤ 255)
    (hs : toUInt s = i) (cf base : Format) (st : AnsiEscapeCodeHandler) :
    applyCodes base [['3', '8'], ['5'], s] cf st =
      some (cf.setForeground (some (specColor256 i)),
        st.setFormatScope (cf.setForeground (some (specColor256 i)))) ∧
    applyCodes base [['4', '8'], ['5'], s] cf st =
      some (cf.setBackground (some (specColor256 i)),
        st.setFormatScope (cf.setBackground (some (specColor256 i)))) := by
  subst hs
  have h38 : toUInt ['3', '8'] = 38 := by decide
  have h48 : toUInt ['4', '8'] = 48 := by decide
  have h5 : toInt ['5'] = 5 := by decide
  simp [applyCodes, h38, h48, h5, color256_eq_spec _ hi]

/-- C6 witness: index 20 (the spec's own example), via the cube formula. -/
theorem c6_256_color_selection_matches_spec_witness :
    applyCodes defaultFormat [['3', '8'], ['5'], ['2', '0']] defaultFormat initHandler =
      some (defaultFormat.setForeground (some (specColor256 20)),
        initHandler.setFormatScope (defaultFormat.setForeground (some (specColor256 20)))) ∧
    applyCodes defaultFormat [['4', '8'], ['5'], ['2', '0']] defaultFormat initHandler =
      some (defaultFormat.setBackground (some (specColor256 20)),
        initHandler.setFormatScope (defaultFormat.setBackground (some (specColor256 20)))) :=
  c6_256_color_selection_matches_spec ['2', '0'] 20 (by decide) (by decide)
    defaultFormat defaultFormat initHandler

/-! ### C9 -/

/-- C9 counterexample: at viewport height 25, line height 10 and 3 blocks, the code
(`qRound`, giving 3 visible lines) performs a scroll update to offset 0, while the
claim's `floor` formula (2 visible lines) demands offset 3 − 2 + 2 = 3. -/
theorem c9_counterexample :
    scrollToBottomValue 25 10 3 = some 0 ∧ scrollToBottomValueSpec 25 10 3 = some 3 ∧
    scrollToBottomValue 25 10 3 ≠ scrollToBottomValueSpec 25 10 3 := by
  refine ⟨?_, ?_, ?_⟩ <;> norm_num [scrollToBottomValue, scrollToBottomValueSpec, qRoundQ]

/-- C9 (amended): the autoscroll position uses
`viewportLines = qRound(viewportHeight / lineHeight)` — the nearest integer, halves
rounded up — rather than the floor: with that reading, if `viewportLines ≤ 0` no
scroll update occurs, otherwise the offset is `totalBlocks − viewportLines + 2` when
`totalBlocks > viewportLines` and 0 otherwise. -/
theorem c9_autoscroll_amended (h lh : ℚ) (bc : ℤ) (hlh : 0 < lh) :
    scrollToBottomValue h lh bc = scrollToBottomValueAmended h lh bc := by
  unfold scrollToBottomValue scrollToBottomValueAmended qRoundQ
  have hq : h / lh + 1 / 2 = (2 * h + lh) / (2 * lh) := by
    field_simp
    ring
  rw [hq]

/-- C9 witness. -/
theorem c9_autoscroll_amended_witness :
    scrollToBottomValue 25 10 3 = scrollToBottomValueAmended 25 10 3 :=
  c9_autoscroll_amended 25 10 3 (by norm_num)

theorem indexOfChar_cons_self (c : Char) (t : Str) : indexOfChar c (c :: t) = some 0 := by
  simp [indexOfChar]

theorem indexOfChar_append_cons (c : Char) (P r : Str) (h : c ∉ P) :
    indexOfChar c (P ++ c :: r) = some P.length := by
  induction P with
  | nil => simp [indexOfChar]
  | cons a t ih =>
    have ha : ¬a = c := fun hc => h (hc ▸ List.mem_cons_self a t)
    have ht : c ∉ t := fun hm => h (List.mem_cons_of_mem a hm)
    simp [indexOfChar, ha, ih ht]

/-- The CSI erase-line early return: whenever a step starts at a CSI introducer and
the upper-cased remainder of the chunk contains the marker `2K`, the step finishes
the call with a `ClearCurrentLine` effect, emits nothing for the sequence, and
leaves the two introducer bytes in `m_pendingText`. -/
theorem parseStep_csi_2K (base : Format) (st : AnsiEscapeCodeHandler) (cf : Format)
    (rest : Str)
    (hpend : st.m_pendingText = []) (hwait : st.m_waitingForTerminator = false)
    (h2k : containsStr ['2', 'K'] (toUpperStr rest) = true) :
    parseStep base st cf (escChar :: '[' :: rest) =
      .done [] (some .clearCurrentLine) true { st with m_pendingText := [escChar, '['] } := by
  unfold parseStep
  rw [if_neg (by simp), if_neg (by simp [hpend]), if_neg (by simp [hwait]),
    indexOfChar_cons_self]
  simp [escDispatch, csiStep, h2k]

/-- A non-empty escape-free prefix before an escape introducer is emitted as exactly
one TextRun, and the step resumes at the introducer. -/
theorem parseStep_plain_prefix (base : Format) (st : AnsiEscapeCodeHandler) (cf : Format)
    (P rest : Str)
    (hP : P ≠ []) (hesc : escChar ∉ P)
    (hpend : st.m_pendingText = []) (hwait : st.m_waitingForTerminator = false) :
    parseStep base st cf (P ++ escChar :: rest) =
      .next st cf (escChar :: rest) [⟨P, cf⟩] := by
  unfold parseStep
  rw [if_neg (by simp [hP]), if_neg (by simp [hpend]), if_neg (by simp [hwait]),
    indexOfChar_append_cons escChar P rest hesc]
  simp [List.length_eq_zero, hP, List.drop_left, List.take_left]

theorem applyClearCurrentLine_append (bs : Doc) (b : Str) (hbs : bs ≠ []) :
    applyClearCurrentLine (bs ++ [b]) = bs := by
  obtain ⟨p, rest, hrev⟩ : ∃ p rest, bs.reverse = p :: rest := by
    cases h : bs.reverse with
    | nil => exact absurd (by simpa using congrArg List.reverse h) hbs
    | cons p rest => exact ⟨p, rest, rfl⟩
  have hbs' : bs = (p :: rest).reverse := by rw [← hrev, List.reverse_reverse]
  subst hbs'
  unfold applyClearCurrentLine removeLastBlockContent deletePreviousCharDoc
  rw [List.dropLast_concat]
  simp

/-! ### C5 -/

/-- C10: when feed detects the erase-line marker and returns early with
`ClearCurrentLine`, `pendingBytes` still holds the two consumed introducer bytes
(first conjunct, for every such feed step; second conjunct, concretely for
`ESC[2K`), and on the next feed call those bytes are prepended to the chunk, so a
next chunk `31mX` is parsed as the parameter text of an escape sequence — it yields
the styled run `X` with red foreground, not the literal text `31mX`. -/
theorem c10_pending_keeps_introducer_after_clear_line :
    (∀ (fuel : Nat) (base : Format) (st : AnsiEscapeCodeHandler) (cf : Format)
       (rest : Str) (acc : List FormattedText),
      st.m_pendingText = [] → st.m_waitingForTerminator = false →
      containsStr ['2', 'K'] (toUpperStr rest) = true →
      parseTextLoop (fuel + 1) base st cf (escChar :: '[' :: rest) acc =
        some (.ok ⟨acc, some .clearCurrentLine, { st with m_pendingText := [escChar, '['] }⟩)) ∧
    parseText initHandler ['\x1b', '[', '2', 'K'] defaultFormat =
      some (.ok ⟨[], some .clearCurrentLine, ⟨['\x1b', '['], defaultFormat, true, false, []⟩⟩) ∧
    parseText ⟨['\x1b', '['], defaultFormat, true, false, []⟩ ['3', '1', 'm', 'X']
        defaultFormat =
      some (.ok ⟨[⟨['X'], ⟨some ⟨170, 0, 0⟩, none, false⟩⟩], none,
        ⟨[], ⟨some ⟨170, 0, 0⟩, none, false⟩, false, false, []⟩⟩) := by
  refine ⟨?_, by decide, by decide⟩
  intro fuel base st cf rest acc hpend hwait h2k
  rw [parseTextLoop, parseStep_csi_2K base st cf rest hpend hwait h2k]
  simp

/-- C10 witness. -/
theorem c10_pending_keeps_introducer_after_clear_line_witness :
    parseTextLoop 1 defaultFormat initHandler defaultFormat
        (escChar :: '[' :: ['2', 'K']) [] =
      some (.ok ⟨[], some .clearCurrentLine,
        { initHandler with m_pendingText := [escChar, '['] }⟩) :=
  c10_pending_keeps_introducer_after_clear_line.1 0 defaultFormat initHandler defaultFormat
    ['2', 'K'] [] rfl rfl (by decide)

theorem indexOfStr_nil_pat (s : Str) : indexOfStr [] s = some 0 := by
  cases s <;> simp [indexOfStr, List.isPrefixOf]

theorem isPrefixOf_append_ext {pat l t : Str} (h : pat.isPrefixOf l = true) :
    pat.isPrefixOf (l ++ t) = true := by
  rw [List.isPrefixOf_iff_prefix] at *
  exact h.trans ⟨t, rfl⟩

theorem indexOfStr_isSome_append (pat t : Str) :
    ∀ p : Str, (indexOfStr pat p).isSome → (indexOfStr pat (p ++ t)).isSome
  | [], h => by
    have hp : pat = [] := by
      by_contra hne
      simp [indexOfStr, hne] at h
    subst hp
    simp [indexOfStr_nil_pat]
  | a :: p', h => by
    rw [List.cons_append, indexOfStr]
    by_cases hpre : pat.isPrefixOf (a :: (p' ++ t)) = true
    · simp [hpre]
    · rw [if_neg (by simpa using hpre)]
      have hpre0 : ¬pat.isPrefixOf (a :: p') = true := fun hc =>
        hpre (by simpa using isPrefixOf_append_ext (l := a :: p') (t := t) hc)
      rw [indexOfStr, if_neg (by simpa using hpre0)] at h
      have h' := indexOfStr_isSome_append pat t p' (by simpa using h)
      simpa using h'

theorem containsStr_mono (pat p t : Str) (h : containsStr pat p = true) :
    containsStr pat (p ++ t) = true := by
  unfold containsStr at h ⊢
  exact indexOfStr_isSome_append pat t p h

theorem toUpperStr_append (a b : Str) : toUpperStr (a ++ b) = toUpperStr a ++ toUpperStr b :=
  List.map_append toUpperCharA a b

/-! ### C4 -/

/-- C4 counterexample: on a two-block buffer whose last block is `hello`, the
`ESC[2K` feed does emit `ClearCurrentLine`, but applying it does not leave the last
block empty: the code's `deletePreviousChar` also removes the block separator, so
the buffer `["a", "hello"]` collapses to `["a"]` — the last block is `a`, not the
empty block the claim requires. -/
theorem c4_counterexample :
    parseText initHandler ['\x1b', '[', '2', 'K'] defaultFormat =
      some (.ok ⟨[], some .clearCurrentLine, ⟨['\x1b', '['], defaultFormat, true, false, []⟩⟩) ∧
    (parseText initHandler ['\x1b', '[', '2', 'K'] defaultFormat).map
      (fun o => applyOutcomeToDoc [['a'], ['h', 'e', 'l', 'l', 'o']] o) = some [['a']] ∧
    ([['a']] : Doc).getLast? ≠ some [] := by
  refine ⟨by decide, by decide, by decide⟩

/-- C4 (amended): whenever a feed step reaches a CSI introducer and the accumulated
(case-insensitively upper-cased) parameter/terminator text — a leading part of the
remaining chunk — contains the marker `2K`, the call finishes with a
`ClearCurrentLine` effect and the sequence is dropped (no run is emitted for it).
Applied to the single-block buffer `["hello"]`, `ESC[2K` clears that block to
empty, and a subsequent append starts fresh block content; on a buffer with more
than one block, however, the emptied last block is merged into the previous one
(the code also deletes the preceding block separator). -/
theorem c4_clear_line :
    (∀ (fuel : Nat) (base : Format) (st : AnsiEscapeCodeHandler) (cf : Format)
       (p t : Str) (acc : List FormattedText),
      st.m_pendingText = [] → st.m_waitingForTerminator = false →
      containsStr ['2', 'K'] (toUpperStr p) = true →
      parseTextLoop (fuel + 1) base st cf (escChar :: '[' :: (p ++ t)) acc =
        some (.ok ⟨acc, some .clearCurrentLine, { st with m_pendingText := [escChar, '['] }⟩)) ∧
    (parseText initHandler ['\x1b', '[', '2', 'K'] defaultFormat).map
      (fun o => applyOutcomeToDoc [['h', 'e', 'l', 'l', 'o']] o) = some [[]] ∧
    insertTextAtEnd [[]] ['w', 'o', 'r', 'l', 'd'] = [['w', 'o', 'r', 'l', 'd']] ∧
    (∀ (bs : Doc) (b : Str), bs ≠ [] → applyClearCurrentLine (bs ++ [b]) = bs) := by
  refine ⟨?_, by decide, by decide, applyClearCurrentLine_append⟩
  intro fuel base st cf p t acc hpend hwait h2k
  have h2k' : containsStr ['2', 'K'] (toUpperStr (p ++ t)) = true := by
    rw [toUpperStr_append]
    exact containsStr_mono _ _ _ h2k
  rw [parseTextLoop, parseStep_csi_2K base st cf (p ++ t) hpend hwait h2k']
  simp

/-- C4 witness. -/
theorem c4_clear_line_witness :
    parseTextLoop 1 defaultFormat initHandler defaultFormat
        (escChar :: '[' :: (['2', 'K'] ++ [])) [] =
      some (.ok ⟨[], some .clearCurrentLine,
        { initHandler with m_pendingText := [escChar, '['] }⟩) ∧
    applyClearCurrentLine ([['a']] ++ [['h', 'i']]) = [['a']] :=
  ⟨c4_clear_line.1 0 defaultFormat initHandler defaultFormat ['2', 'K'] [] [] rfl rfl
      (by decide),
   c4_clear_line.2.2.2 [['a']] ['h', 'i'] (by decide)⟩

/-! ### C7 -/

/-- C7 counterexample: feeding `A ESC N B` yields the two TextRuns `A` and `B`,
adjacent in the output and carrying the same style (the ignored two-byte escape
between them changes nothing), so the output does contain two adjacent TextRuns
with equal style. -/
theorem c7_counterexample :
    parseText initHandler ['A', '\x1b', 'N', 'B'] defaultFormat =
      some (.ok ⟨[⟨['A'], defaultFormat⟩, ⟨['B'], defaultFormat⟩], none, initHandler⟩) ∧
    (⟨['A'], defaultFormat⟩ : FormattedText).format =
      (⟨['B'], defaultFormat⟩ : FormattedText).format := by
  refine ⟨by decide, rfl⟩

/-- C7 (amended): a maximal run of consecutive literal (escape-free) input
characters is emitted as exactly one TextRun, whose text never crosses an
escape-sequence boundary: an escape-free non-empty remainder becomes one final
TextRun, and an escape-free non-empty stretch before an escape introducer becomes
one TextRun ending exactly at the introducer.  (Two adjacent TextRuns may still
carry equal style when an ignored escape sequence separates them.) -/
theorem c7_literal_run_coalescing :
    (∀ (fuel : Nat) (base : Format) (st : AnsiEscapeCodeHandler) (cf : Format)
       (s : Str) (acc : List FormattedText),
      s ≠ [] → escChar ∉ s → st.m_pendingText = [] → st.m_waitingForTerminator = false →
      parseTextLoop (fuel + 1) base st cf s acc = some (.ok ⟨acc ++ [⟨s, cf⟩], none, st⟩)) ∧
    (∀ (fuel : Nat) (base : Format) (st : AnsiEscapeCodeHandler) (cf : Format)
       (P rest : Str) (acc : List FormattedText),
      P ≠ [] → escChar ∉ P → st.m_pendingText = [] → st.m_waitingForTerminator = false →
      parseTextLoop (fuel + 1) base st cf (P ++ escChar :: rest) acc =
        parseTextLoop fuel base st cf (escChar :: rest) (acc ++ [⟨P, cf⟩])) := by
  constructor
  · intro fuel base st cf s acc hs hesc hpend hwait
    rw [parseTextLoop, parseStep_no_esc base st cf s hs hpend hwait hesc]
    simp
  · intro fuel base st cf P rest acc hP hesc hpend hwait
    rw [parseTextLoop, parseStep_plain_prefix base st cf P rest hP hesc hpend hwait]

/-- C7 witness. -/
theorem c7_literal_run_coalescing_witness :
    parseTextLoop 1 defaultFormat initHandler defaultFormat ['A'] [] =
      some (.ok ⟨[] ++ [⟨['A'], defaultFormat⟩], none, initHandler⟩) ∧
    parseTextLoop 2 defaultFormat initHandler defaultFormat (['A'] ++ escChar :: ['N']) [] =
      parseTextLoop 1 defaultFormat initHandler defaultFormat (escChar :: ['N'])
        ([] ++ [⟨['A'], defaultFormat⟩]) :=
  ⟨c7_literal_run_coalescing.1 0 defaultFormat initHandler defaultFormat ['A'] []
      (by decide) (by decide) rfl rfl,
   c7_literal_run_coalescing.2 1 defaultFormat initHandler defaultFormat ['A'] ['N'] []
      (by decide) (by decide) rfl rfl⟩

theorem trimBlocks_pos (maxBlockCount : Int) (h : 0 < maxBlockCount) (bs : Doc) :
    trimBlocks maxBlockCount bs = bs.drop (bs.length - maxBlockCount.toNat) := by
  unfold trimBlocks
  rw [if_pos h]

theorem lastN_append (m : Nat) (x y : Doc) :
    ((x.drop (x.length - m) ++ y).drop ((x.drop (x.length - m) ++ y).length - m)) =
      (x ++ y).drop ((x ++ y).length - m) := by
  have hk : x.length - m ≤ x.length := Nat.sub_le _ _
  rw [← List.drop_append_of_le_length hk, List.drop_drop]
  congr 1
  simp only [List.length_drop, List.length_append]
  omega

theorem foldl_appendBlock (maxBlockCount : Int) (h : 0 < maxBlockCount) :
    ∀ (L : List Str) (bs : Doc), L ≠ [] →
      L.foldl (appendBlock maxBlockCount) bs =
        (bs ++ L).drop ((bs ++ L).length - maxBlockCount.toNat)
  | [], _, hL => absurd rfl hL
  | [b], bs, _ => by
    simp only [List.foldl_cons, List.foldl_nil, appendBlock, trimBlocks_pos maxBlockCount h]
  | b :: b' :: L', bs, _ => by
    rw [List.foldl_cons,
      foldl_appendBlock maxBlockCount h (b' :: L') (appendBlock maxBlockCount bs b) (by simp),
      appendBlock, trimBlocks_pos maxBlockCount h, lastN_append]
    congr 1 <;> simp

/-! ### C8 -/

/-- C8: with `maxBlockCount > 0` every append leaves at most `maxBlockCount` blocks;
appending any non-empty batch of blocks leaves exactly the most recent blocks of the
total (the oldest dropped first, FIFO); and `maxBlockCount ≤ 0` imposes no bound. -/
theorem c8_block_count_bound_fifo (maxBlockCount : Int) :
    (0 < maxBlockCount → ∀ (bs : Doc) (b : Str),
      ((appendBlock maxBlockCount bs b).length : Int) ≤ maxBlockCount) ∧
    (0 < maxBlockCount → ∀ (bs : Doc) (L : List Str), L ≠ [] →
      L.foldl (appendBlock maxBlockCount) bs =
        (bs ++ L).drop ((bs ++ L).length - maxBlockCount.toNat)) ∧
    (maxBlockCount ≤ 0 → ∀ (bs : Doc) (b : Str),
      appendBlock maxBlockCount bs b = bs ++ [b]) := by
  refine ⟨?_, fun h bs L hL => foldl_appendBlock maxBlockCount h L bs hL, ?_⟩
  · intro h bs b
    rw [appendBlock, trimBlocks_pos maxBlockCount h]
    have hlen : ((bs ++ [b]).drop ((bs ++ [b]).length - maxBlockCount.toNat)).length =
        (bs ++ [b]).length - ((bs ++ [b]).length - maxBlockCount.toNat) :=
      List.length_drop _ _
    have htn : (maxBlockCount.toNat : Int) = maxBlockCount := Int.toNat_of_nonneg h.le
    omega
  · intro h bs b
    unfold appendBlock trimBlocks
    rw [if_neg (by omega)]

/-- C8 witness: bound 2 with three appended blocks keeps only the two newest. -/
theorem c8_block_count_bound_fifo_witness :
    (((appendBlock 2 [['a'], ['b']] ['c']).length : Int) ≤ 2) ∧
    [['x'], ['y'], ['z']].foldl (appendBlock 2) [] =
      (([] : Doc) ++ [['x'], ['y'], ['z']]).drop
        ((([] : Doc) ++ [['x'], ['y'], ['z']]).length - (2 : Int).toNat) :=
  ⟨(c8_block_count_bound_fifo 2).1 (by norm_num) [['a'], ['b']] ['c'],
   (c8_block_count_bound_fifo 2).2.1 (by norm_num) [] [['x'], ['y'], ['z']] (by decide)⟩

/-! ### String lemmas for the chunk-split analysis -/

